import Mathlib

/-!
Shallow embedding of the rapla-sync library (`src/lib.rs`): extraction of a
`Calendar` from a weekly rapla HTML timetable and export to an iCalendar value.

The HTML/DOM layer (the `scraper` crate) is external to the repository, so a
document is embedded as the result of the fixed CSS-selector queries the code
performs: a `Doc` holds the inner HTML of the first `title` element, the inner
HTML of the selected year `option`, and the list of week blocks
(`div.calendar > table.week_table > tbody`); each `Week` holds the inner HTML
of its first `th.week_number` and `td.week_header > nobr` elements and its
list of `tr` rows; each `Cell` holds its CSS class list, the inner HTML of its
first `a` element, and the inner HTML of each `span.resource` in order.
`select(...).next()` is `Option`-valued, hence the `Option String` fields.

Rust string primitives (`str::split`, `str::replace`, `str::trim`,
`str::trim_end_matches`, `str::parse`) are re-implemented over character
lists so that every definition evaluates inside the kernel.  `chrono`
dates are embedded as day numbers (days since 1970-01-01, proleptic
Gregorian) with the civil-calendar conversion algorithms.
-/

namespace RaplaSync

/-! ## Rust string primitives -/

/-- Core of Rust `str::split(sep)` for a non-empty separator: scan left to
right, cut at each non-overlapping occurrence of `sep`, keep empty pieces
(including a trailing one).  `fuel` bounds the recursion; callers pass the
length of the scanned list, which suffices because every step consumes at
least one character. -/
def splitAux (sep : List Char) : Nat → List Char → List Char → List (List Char)
  | _, acc, [] => [acc.reverse]
  | 0, acc, cs => [acc.reverse ++ cs]
  | fuel + 1, acc, c :: cs =>
    if sep.isPrefixOf (c :: cs) then
      acc.reverse :: splitAux sep fuel [] ((c :: cs).drop sep.length)
    else
      splitAux sep fuel (c :: acc) cs

/-- Rust `str::split(sep)` (used by the source with separators
`" "`, `"."`, `"<br>"`, `"&nbsp;-"` and `":"`, all non-empty). -/
def splitStr (s sep : String) : List String :=
  (splitAux sep.data s.data.length [] s.data).map String.mk

/-- Core of Rust `str::replace(pat, rep)` for a non-empty pattern:
non-overlapping occurrences replaced left to right. -/
def replaceAux (pat rep : List Char) : Nat → List Char → List Char
  | _, [] => []
  | 0, cs => cs
  | fuel + 1, c :: cs =>
    if pat.isPrefixOf (c :: cs) then
      rep ++ replaceAux pat rep fuel ((c :: cs).drop pat.length)
    else
      c :: replaceAux pat rep fuel cs

/-- Rust `str::replace` (used with patterns `"&amp;"` and `' '`). -/
def replaceStr (s pat rep : String) : String :=
  String.mk (replaceAux pat.data rep.data s.data.length s.data)

/-- Rust `str::starts_with(pat)`. -/
def startsWithStr (s pat : String) : Bool :=
  pat.data.isPrefixOf s.data

/-- Whitespace as trimmed by Rust `str::trim` (ASCII fragment; the source
only ever trims the page title). -/
def isWsChar (c : Char) : Bool :=
  c = ' ' || c = '\t' || c = '\n' || c = '\r'

/-- Rust `str::trim`. -/
def trimStr (s : String) : String :=
  String.mk (((s.data.dropWhile isWsChar).reverse.dropWhile isWsChar).reverse)

/-- Rust `str::trim_end_matches(c)`: remove every trailing occurrence. -/
def dropTrailing (s : String) (p : Char → Bool) : String :=
  String.mk ((s.data.reverse.dropWhile p).reverse)

/-- Numeric value of a digit list (most significant first). -/
def digitsVal (cs : List Char) : Nat :=
  cs.foldl (fun a c => a * 10 + (c.toNat - 48)) 0

/-- Rust `str::parse::<usize>` / `::<u32>`: optional leading `+`, then one or
more decimal digits and nothing else.  (The 32/64-bit overflow bound is not
modelled; no claim exercises it.) -/
def parseNatRust (s : String) : Option Nat :=
  let cs := match s.data with
    | '+' :: rest => rest
    | cs => cs
  if cs.isEmpty then none
  else if cs.all Char.isDigit then some (digitsVal cs) else none

/-- Rust `str::parse::<i32>`: optional sign, then digits. -/
def parseIntRust (s : String) : Option Int :=
  match s.data with
  | '-' :: rest =>
    if rest.isEmpty then none
    else if rest.all Char.isDigit then some (-(digitsVal rest : Int)) else none
  | _ => (parseNatRust s).map fun n => (n : Int)

/-! ## chrono dates and times -/

/-- `chrono::NaiveDate`, embedded as a day number: days since 1970-01-01 in
the proleptic Gregorian calendar.  `Duration::days` is plain addition and the
chronological order is the integer order. -/
abbrev NaiveDate := Int

/-- Proleptic Gregorian leap-year rule. -/
def isLeapYear (y : Int) : Bool :=
  y % 4 == 0 && (y % 100 != 0 || y % 400 == 0)

/-- Length of month `m` of year `y`. -/
def daysInMonth (y : Int) (m : Nat) : Nat :=
  if m = 2 then (if isLeapYear y then 29 else 28)
  else if m = 4 || m = 6 || m = 9 || m = 11 then 30
  else 31

/-- Day number of the civil date `y-m-d` (Hinnant's `days_from_civil`). -/
def NaiveDate.daysFromCivil (y : Int) (m d : Nat) : NaiveDate :=
  let y' : Int := if m ≤ 2 then y - 1 else y
  let era : Int := Int.fdiv y' 400
  let yoe : Int := y' - era * 400
  let mp : Nat := if 2 < m then m - 3 else m + 9
  let doy : Nat := (153 * mp + 2) / 5 + d - 1
  let doe : Int := yoe * 365 + Int.fdiv yoe 4 - Int.fdiv yoe 100 + (doy : Int)
  era * 146097 + doe - 719468

/-- Civil date `(y, m, d)` of a day number (Hinnant's `civil_from_days`);
used only when formatting for the iCalendar export. -/
def NaiveDate.civilFromDays (date : NaiveDate) : Int × Nat × Nat :=
  let z : Int := date + 719468
  let era : Int := Int.fdiv z 146097
  let doe : Int := z - era * 146097
  let yoe : Int :=
    Int.fdiv (doe - Int.fdiv doe 1460 + Int.fdiv doe 36524 - Int.fdiv doe 146096) 365
  let y : Int := yoe + era * 400
  let doy : Int := doe - (365 * yoe + Int.fdiv yoe 4 - Int.fdiv yoe 100)
  let mp : Int := Int.fdiv (5 * doy + 2) 153
  let d : Int := doy - Int.fdiv (153 * mp + 2) 5 + 1
  let m : Int := if mp < 10 then mp + 3 else mp - 9
  (if m ≤ 2 then y + 1 else y, m.toNat, d.toNat)

/-- `chrono::NaiveDate::from_ymd_opt`: `none` unless `y-m-d` is a valid civil
date (chrono additionally restricts years to its internal ±262000 window). -/
def NaiveDate.from_ymd_opt (y : Int) (m d : Nat) : Option NaiveDate :=
  if -262144 ≤ y ∧ y ≤ 262143 ∧ 1 ≤ m ∧ m ≤ 12 ∧ 1 ≤ d ∧ d ≤ daysInMonth y m then
    some (NaiveDate.daysFromCivil y m d)
  else none

/-- `chrono::NaiveTime` at the minute precision the source uses (seconds are
always zero after parsing with `"%H:%M"`). -/
structure NaiveTime where
  hour : Nat
  minute : Nat
deriving DecidableEq, Repr

/-- `chrono::NaiveTime::parse_from_str(s, "%H:%M")`: a 1-2 digit hour, a
literal `:`, a 1-2 digit minute, the whole string consumed, both fields in
range. -/
def parseTimeHM (s : String) : Option NaiveTime :=
  match splitStr s ":" with
  | [h, m] =>
    if !h.data.isEmpty && h.data.length ≤ 2 && h.data.all Char.isDigit
        && !m.data.isEmpty && m.data.length ≤ 2 && m.data.all Char.isDigit then
      let hv := digitsVal h.data
      let mv := digitsVal m.data
      if hv ≤ 23 ∧ mv ≤ 59 then some ⟨hv, mv⟩ else none
    else none
  | _ => none

/-! ## Document model (results of the fixed selector queries) -/

/-- A `td` cell of a data row: its CSS classes in attribute order
(`column.value().classes()`), the inner HTML of its first `a` element, and
the inner HTML of each `span.resource` in document order. -/
structure Cell where
  classes : List String
  anchorHtml : Option String
  resources : List String
deriving DecidableEq, Repr

/-- A `tr` row of a week table. -/
structure Row where
  cells : List Cell
deriving DecidableEq, Repr

/-- One week block (`tbody`): inner HTML of its first `th.week_number`, inner
HTML of its first `td.week_header > nobr`, and its `tr` rows. -/
structure Week where
  weekNumberHtml : Option String
  startDateHtml : Option String
  rows : List Row
deriving DecidableEq, Repr

/-- The queried document: first `title` element, selected year `option`, and
the week blocks in document order. -/
structure Doc where
  titleHtml : Option String
  startYearHtml : Option String
  weeks : List Week
deriving DecidableEq, Repr

/-! ## Calendar data model -/

/-- `Event` of `src/lib.rs` (`endTime` embeds the source field `end`). -/
structure Event where
  date : NaiveDate
  start : NaiveTime
  endTime : NaiveTime
  title : String
  location : Option String
deriving DecidableEq, Repr

/-- `Calendar` of `src/lib.rs`. -/
structure Calendar where
  name : String
  events : List Event
deriving DecidableEq, Repr

/-! ## Extraction (`Calendar::from_html`, `Event::from_element`) -/

/-- `Event::from_element`: split the anchor's inner HTML on `"<br>"`, split
the first part on `"&nbsp;-"` into two `%H:%M` times, decode `"&amp;"` in the
second part as the title, and take the second `span.resource` (if any) as the
location. -/
def Event.from_element (element : Cell) (date : NaiveDate) : Option Event :=
  element.anchorHtml.bind fun details =>
    let details_split := splitStr details "<br>"
    (details_split.get? 0).bind fun times_raw =>
      let times_raw_split := splitStr times_raw "&nbsp;-"
      ((times_raw_split.get? 0).bind parseTimeHM).bind fun start =>
        ((times_raw_split.get? 1).bind parseTimeHM).bind fun endT =>
          (details_split.get? 1).map fun title_raw =>
            { date := date
              start := start
              endTime := endT
              title := replaceStr title_raw "&amp;" "&"
              location := element.resources.get? 1 }

/-- The cell loop of `Calendar::from_html` over one row: take the first CSS
class (`classes().next()?` — a classless cell aborts), bump the day offset on
a class starting with `"week_separatorcell"`, skip any class other than
exactly `"week_block"`, and otherwise extract an event dated
`monday + day_index`. -/
def processCells (monday : NaiveDate) (dayIndex : Nat) : List Cell → Option (List Event)
  | [] => some []
  | column :: rest =>
    column.classes.head?.bind fun cls =>
      let d := if startsWithStr cls "week_separatorcell" then dayIndex + 1 else dayIndex
      if cls = "week_block" then
        (Event.from_element column (monday + (d : Int))).bind fun event =>
          (processCells monday d rest).map fun events => event :: events
      else
        processCells monday d rest

/-- The row loop of `Calendar::from_html` (already past `.skip(1)`): per row,
recompute `monday` from the running year and the parsed day/month and walk the
cells with the day offset reset to `0`. -/
def processRows (year : Int) (month day : Nat) : List Row → Option (List Event)
  | [] => some []
  | row :: rest =>
    (NaiveDate.from_ymd_opt year month day).bind fun monday =>
      (processCells monday 0 row.cells).bind fun evs =>
        (processRows year month day rest).map fun evs' => evs ++ evs'

/-- Week-number label of a block: split the `th.week_number` inner HTML on a
space, take the second token, parse as an unsigned integer. -/
def parseWeekNumber (week : Week) : Option Nat :=
  week.weekNumberHtml.bind fun s =>
    ((splitStr s " ").get? 1).bind fun tok => parseNatRust tok

/-- Header date of a block: split the `td.week_header > nobr` inner HTML on a
space, take the second token (`"D.M."`), strip trailing dots, split on `.`,
parse day and month. -/
def parseDayMonth (week : Week) : Option (Nat × Nat) :=
  week.startDateHtml.bind fun raw =>
    ((splitStr raw " ").get? 1).bind fun tok =>
      let day_month := splitStr (dropTrailing tok (fun c => c = '.')) "."
      ((day_month.get? 0).bind parseNatRust).bind fun start_day =>
        ((day_month.get? 1).bind parseNatRust).map fun start_month =>
          (start_day, start_month)

/-- One week block, given the running year already adjusted for rollover:
parse the header day/month and walk every row after the header row. -/
def processWeek (year : Int) (week : Week) : Option (List Event) :=
  (parseDayMonth week).bind fun dm =>
    processRows year dm.2 dm.1 (week.rows.drop 1)

/-- The week loop of `Calendar::from_html`: parse each block's week number,
increment the running year when it equals 1 and the zero-based block index is
positive, and accumulate the block's events. -/
def processWeeks (year : Int) (idx : Nat) : List Week → Option (List Event)
  | [] => some []
  | week :: rest =>
    (parseWeekNumber week).bind fun week_number =>
      let year := if week_number = 1 ∧ 0 < idx then year + 1 else year
      (processWeek year week).bind fun evs =>
        (processWeeks year (idx + 1) rest).map fun evs' => evs ++ evs'

/-- `Calendar::from_html`: trimmed title as the name, parsed selected year as
the starting year, then the week loop. -/
def Calendar.from_html (doc : Doc) : Option Calendar :=
  doc.titleHtml.bind fun title_inner =>
    let name := trimStr title_inner
    doc.startYearHtml.bind fun year_inner =>
      (parseIntRust year_inner).bind fun start_year =>
        (processWeeks start_year 0 doc.weeks).map fun events =>
          { name := name, events := events }

/-- Cells whose first CSS class starts with `"week_separatorcell"` (the cells
that advance the day offset). -/
def isSeparatorCell (c : Cell) : Bool :=
  match c.classes.head? with
  | some cls => startsWithStr cls "week_separatorcell"
  | none => false

/-- Number of day-separator cells in a cell list. -/
def sepCount (cells : List Cell) : Nat :=
  cells.countP isSeparatorCell

/-- Non-decreasing date order along an event list. -/
def eventsSortedByDate : List Event → Bool
  | [] => true
  | [_] => true
  | a :: b :: rest => decide (a.date ≤ b.date) && eventsSortedByDate (b :: rest)

/-! ## iCalendar export (`Calendar::to_ics`, `Event::to_ics`) -/

/-- One timezone sub-component as built by the source through the `ics` crate
(`Standard::new` / `Daylight::new` plus one `TzName` and one `RRule` push). -/
structure TzComponent where
  dtstart : String
  tzOffsetFrom : String
  tzOffsetTo : String
  tzDisplayName : String
  rrule : String
deriving DecidableEq, Repr

/-- A `VTIMEZONE` value with one daylight and one standard sub-component. -/
structure IcsTimeZone where
  tzid : String
  daylight : TzComponent
  standard : TzComponent
deriving DecidableEq, Repr

/-- A `VEVENT` value as built by the source: the `ics::Event::new(uid, dtstamp)`
constructor arguments plus the pushed `DTSTART`, `DTEND`, `SUMMARY` and
optional `LOCATION` properties. -/
structure IcsEvent where
  uid : String
  dtstamp : String
  dtstart : String
  dtend : String
  summary : String
  location : Option String
deriving DecidableEq, Repr

/-- The exported calendar document value: version, product identifier (the
source passes the calendar name), timezone definitions and event blocks. -/
structure ICalendar where
  version : String
  prodid : String
  timezones : List IcsTimeZone
  events : List IcsEvent
deriving DecidableEq, Repr

/-- The fixed Europe/Berlin timezone definition hard-coded in
`Calendar::to_ics`, independent of the input. -/
def berlinTimezone : IcsTimeZone :=
  { tzid := "Europe/Berlin"
    daylight := { dtstart := "19700329T020000"
                  tzOffsetFrom := "+0100"
                  tzOffsetTo := "+0200"
                  tzDisplayName := "CEST"
                  rrule := "FREQ=YEARLY;BYMONTH=3;BYDAY=-1SU" }
    standard := { dtstart := "19701025T030000"
                  tzOffsetFrom := "+0200"
                  tzOffsetTo := "+0100"
                  tzDisplayName := "CET"
                  rrule := "FREQ=YEARLY;BYMONTH=10;BYDAY=-1SU" } }

/-- Left-pad a decimal rendering with zeros to the given width. -/
def padZeros (width : Nat) (s : String) : String :=
  if s.length < width then String.mk (List.replicate (width - s.length) '0') ++ s else s

/-- Two-digit zero-padded field (chrono `%m`, `%d`, `%H`, `%M`). -/
def formatNat2 (n : Nat) : String :=
  padZeros 2 (toString n)

/-- chrono `%Y`: at least four digits, sign only when negative. -/
def formatYear (y : Int) : String :=
  if y < 0 then "-" ++ padZeros 4 (toString y.natAbs) else padZeros 4 (toString y.toNat)

/-- chrono `date.format("%Y%m%d")` on a day number. -/
def formatYMD (date : NaiveDate) : String :=
  match NaiveDate.civilFromDays date with
  | (y, m, d) => formatYear y ++ formatNat2 m ++ formatNat2 d

/-- chrono `time.format("%H%M")`. -/
def formatHM (t : NaiveTime) : String :=
  formatNat2 t.hour ++ formatNat2 t.minute

/-- `Event::to_ics`: local start/end instants `YYYYMMDDTHHMM00`, a uid built
from the start instant and the title with spaces replaced by hyphens, the
start instant as `DTSTAMP`, and the optional location. -/
def Event.to_ics (self : Event) : IcsEvent :=
  let start := formatYMD self.date ++ "T" ++ formatHM self.start ++ "00"
  let endStr := formatYMD self.date ++ "T" ++ formatHM self.endTime ++ "00"
  let id := start ++ "_" ++ replaceStr self.title " " "-"
  { uid := id
    dtstamp := start
    dtstart := start
    dtend := endStr
    summary := self.title
    location := self.location }

/-- `Calendar::to_ics`: a version-2.0 document carrying the calendar name,
the one fixed Berlin timezone, and one `VEVENT` per event in order. -/
def Calendar.to_ics (self : Calendar) : ICalendar :=
  { version := "2.0"
    prodid := self.name
    timezones := [berlinTimezone]
    events := self.events.map Event.to_ics }

/-! ## Helper lemmas -/

/-- An extracted event carries exactly the date handed to `Event::from_element`. -/
theorem Event.from_element_date (c : Cell) (d : NaiveDate) (ev : Event)
    (h : Event.from_element c d = some ev) : ev.date = d := by
  simp only [Event.from_element, Option.bind_eq_some, Option.map_eq_some'] at h
  obtain ⟨details, -, times_raw, -, start, -, endT, -, title_raw, -, hev⟩ := h
  cases hev
  rfl

/-- The cell loop is compositional: processing `pre ++ rest` first yields the
events of `pre`, then the events of `rest` at a day offset advanced by the
number of separator cells in `pre`. -/
theorem processCells_append (monday : NaiveDate) (pre : List Cell) :
    ∀ (i : Nat) (rest : List Cell),
      processCells monday i (pre ++ rest) =
        (processCells monday i pre).bind fun evs1 =>
          (processCells monday (i + sepCount pre) rest).map fun evs2 => evs1 ++ evs2 := by
  induction pre with
  | nil =>
    intro i rest
    simp only [List.nil_append, processCells, Option.some_bind, sepCount, List.countP_nil,
      Nat.add_zero]
    cases h : processCells monday i rest <;> simp
  | cons c pre ih =>
    intro i rest
    have hsc : sepCount (c :: pre) = sepCount pre + (if isSeparatorCell c then 1 else 0) := by
      simp [sepCount, List.countP_cons]
    cases hc : c.classes.head? with
    | none => simp [processCells, hc]
    | some cls =>
      have hisep : isSeparatorCell c = startsWithStr cls "week_separatorcell" := by
        simp [isSeparatorCell, hc]
      by_cases hblock : cls = "week_block"
      · subst hblock
        have hnots : startsWithStr "week_block" "week_separatorcell" = false := by decide
        have hidx : i + sepCount (c :: pre) = i + sepCount pre := by
          rw [hsc, hisep, hnots]
          simp
        simp only [List.cons_append, processCells, hc, Option.some_bind, hnots, Bool.false_eq_true,
          if_false, if_pos rfl, hidx, List.append_eq, eq_self_iff_true, if_true]
        rw [ih]
        cases Event.from_element c (monday + (i : Int)) <;>
          cases processCells monday i pre <;>
          cases processCells monday (i + sepCount pre) rest <;> simp
      · by_cases hsep : startsWithStr cls "week_separatorcell" = true
        · have hidx : i + sepCount (c :: pre) = (i + 1) + sepCount pre := by
            rw [hsc, hisep, hsep]
            simp
            omega
          simp only [List.cons_append, processCells, hc, Option.some_bind, hsep, if_true,
            if_neg hblock, hidx]
          exact ih (i + 1) rest
        · have hsep' : startsWithStr cls "week_separatorcell" = false := by
            simpa using hsep
          have hidx : i + sepCount (c :: pre) = i + sepCount pre := by
            rw [hsc, hisep, hsep']
            simp
          simp only [List.cons_append, processCells, hc, Option.some_bind, hsep',
            Bool.false_eq_true, if_false, if_neg hblock, hidx]
          exact ih i rest

/-- Every event produced by the cell loop is dated at or after
`monday + dayIndex`. -/
theorem processCells_date_lb (monday : NaiveDate) (cells : List Cell) :
    ∀ (i : Nat) (evs : List Event), processCells monday i cells = some evs →
      ∀ ev ∈ evs, monday + (i : Int) ≤ ev.date := by
  induction cells with
  | nil =>
    intro i evs h ev hev
    simp only [processCells, Option.some.injEq] at h
    subst h
    simp at hev
  | cons c rest ih =>
    intro i evs h ev hev
    simp only [processCells] at h
    cases hc : c.classes.head? with
    | none => rw [hc] at h; simp at h
    | some cls =>
      rw [hc] at h
      simp only [Option.some_bind] at h
      by_cases hblock : cls = "week_block"
      · subst hblock
        rw [if_pos rfl] at h
        rw [show (if startsWithStr "week_block" "week_separatorcell" = true then i + 1 else i) = i
            from by simp [show startsWithStr "week_block" "week_separatorcell" = false
              from by decide]] at h
        obtain ⟨ev0, hev0, hmap⟩ := Option.bind_eq_some.mp h
        obtain ⟨evs', hevs', rfl⟩ := Option.map_eq_some'.mp hmap
        rcases List.mem_cons.mp hev with rfl | hmem
        · rw [Event.from_element_date c _ _ hev0]
        · exact ih i evs' hevs' ev hmem
      · rw [if_neg hblock] at h
        by_cases hsep : startsWithStr cls "week_separatorcell" = true
        · rw [if_pos hsep] at h
          have hstep := ih (i + 1) evs h ev hev
          push_cast at hstep
          linarith
        · rw [if_neg hsep] at h
          exact ih i evs h ev hev

/-- The events of a single row walk are non-decreasing in date. -/
theorem processCells_sorted (monday : NaiveDate) (cells : List Cell) :
    ∀ (i : Nat) (evs : List Event), processCells monday i cells = some evs →
      eventsSortedByDate evs = true := by
  induction cells with
  | nil =>
    intro i evs h
    simp only [processCells, Option.some.injEq] at h
    subst h
    rfl
  | cons c rest ih =>
    intro i evs h
    simp only [processCells] at h
    cases hc : c.classes.head? with
    | none => rw [hc] at h; simp at h
    | some cls =>
      rw [hc] at h
      simp only [Option.some_bind] at h
      by_cases hblock : cls = "week_block"
      · subst hblock
        rw [if_pos rfl] at h
        rw [show (if startsWithStr "week_block" "week_separatorcell" = true then i + 1 else i) = i
            from by simp [show startsWithStr "week_block" "week_separatorcell" = false
              from by decide]] at h
        obtain ⟨ev0, hev0, hmap⟩ := Option.bind_eq_some.mp h
        obtain ⟨evs', hevs', rfl⟩ := Option.map_eq_some'.mp hmap
        cases evs' with
        | nil => rfl
        | cons b t =>
          have hsorted : eventsSortedByDate (b :: t) = true := ih i (b :: t) hevs'
          have hb : monday + (i : Int) ≤ b.date :=
            processCells_date_lb monday rest i (b :: t) hevs' b (List.mem_cons_self b t)
          have hev0d : ev0.date = monday + (i : Int) := Event.from_element_date c _ _ hev0
          simp only [eventsSortedByDate, Bool.and_eq_true, decide_eq_true_eq]
          exact ⟨by rw [hev0d]; exact hb, hsorted⟩
      · rw [if_neg hblock] at h
        exact ih _ evs h

/-! ## Concrete documents used by the claim theorems -/

/-- A scheduled-session cell with the end-to-end example's anchor markup and
two resource elements, the second being the room. -/
def exampleCell : Cell :=
  { classes := ["week_block"]
    anchorHtml := some "09:00&nbsp;-10:30<br>Algorithms &amp; Data Structures"
    resources := ["Lecturer", "Room 101"] }

/-- The end-to-end example document: one week block labelled `"Mon 3.2."`,
year 2020 selected, a header row and one data row with a single session cell. -/
def exampleDoc : Doc :=
  { titleHtml := some "DHBW Timetable"
    startYearHtml := some "2020"
    weeks := [ { weekNumberHtml := some "KW 6"
                 startDateHtml := some "Mon 3.2."
                 rows := [ ⟨[]⟩, ⟨[exampleCell]⟩ ] } ] }

/-- A day-separator cell. -/
def sepCell : Cell :=
  { classes := ["week_separatorcell_black"], anchorHtml := none, resources := [] }

/-- A session cell at 09:00, used after a separator (Tuesday). -/
def blockCellA : Cell :=
  { classes := ["week_block"], anchorHtml := some "09:00&nbsp;-10:30<br>A", resources := [] }

/-- A session cell at 08:00, used in a later row on Monday. -/
def blockCellB : Cell :=
  { classes := ["week_block"], anchorHtml := some "08:00&nbsp;-09:30<br>B", resources := [] }

/-- A document whose first data row holds a Tuesday event and whose second
data row holds a Monday event, so extraction order is not chronological. -/
def unsortedDoc : Doc :=
  { titleHtml := some "T"
    startYearHtml := some "2020"
    weeks := [ { weekNumberHtml := some "KW 6"
                 startDateHtml := some "Mo 3.2."
                 rows := [ ⟨[]⟩, ⟨[sepCell, blockCellA]⟩, ⟨[blockCellB]⟩ ] } ] }

/-- A session cell whose anchor markup ends right after the line break, so
the title part is present but empty. -/
def emptyTitleCell : Cell :=
  { classes := ["week_block"]
    anchorHtml := some "09:00&nbsp;-10:30<br>"
    resources := [] }

/-- A session cell whose anchor markup has no `"<br>"` at all. -/
def noBreakCell : Cell :=
  { classes := ["week_block"], anchorHtml := some "09:00&nbsp;-10:30", resources := [] }

/-- A cell carrying no CSS class at all. -/
def classlessCell : Cell :=
  { classes := [], anchorHtml := none, resources := [] }

/-- A document that is well-formed except that its only data-row cell carries
no CSS class. -/
def classlessDoc : Doc :=
  { titleHtml := some "T"
    startYearHtml := some "2020"
    weeks := [ { weekNumberHtml := some "KW 6"
                 startDateHtml := some "Mo 3.2."
                 rows := [ ⟨[]⟩, ⟨[classlessCell]⟩ ] } ] }

/-! ## Claim theorems -/

/-- C3: the end-to-end example. On the concrete document with a single week
block whose header date label is `"Mon 3.2."`, selected year 2020, one data
row, and one `week_block` cell with anchor markup
`09:00&nbsp;-10:30<br>Algorithms &amp; Data Structures` and two resource
elements (the second being `"Room 101"`), `Calendar::from_html` returns a
calendar whose events list is exactly one event dated 2020-02-03, 09:00 to
10:30, titled `"Algorithms & Data Structures"`, located in `"Room 101"`. -/
theorem end_to_end_example :
    Calendar.from_html exampleDoc =
      some { name := "DHBW Timetable"
             events := [ { date := NaiveDate.daysFromCivil 2020 2 3
                           start := ⟨9, 0⟩
                           endTime := ⟨10, 30⟩
                           title := "Algorithms & Data Structures"
                           location := some "Room 101" } ] }
    ∧ NaiveDate.civilFromDays (NaiveDate.daysFromCivil 2020 2 3) = (2020, 2, 3) := by
  exact ⟨by decide, by decide⟩

/-- C5 counterexample: a `week_block` cell whose anchor markup is
`09:00&nbsp;-10:30<br>` (nothing after the line break) yields an `Event`
whose `title` is the empty string — extraction does not fail, refuting the
claim that every extracted event has a non-empty title. -/
theorem title_nonempty_counterexample :
    Event.from_element emptyTitleCell 0 =
      some { date := 0, start := ⟨9, 0⟩, endTime := ⟨10, 30⟩, title := "", location := none } := by
  decide

/-- C5 (amended): whenever `Event::from_element` produces an event, the
anchor markup contains a `"<br>"` separator and the title is the decoded
second `"<br>"`-segment, which may be empty; only the absence of a second
segment (no `"<br>"` in the markup) makes the title lookup fail. -/
theorem title_characterisation :
    (∀ (cell : Cell) (d : NaiveDate) (ev : Event),
        Event.from_element cell d = some ev →
        ∃ s t, cell.anchorHtml = some s ∧ (splitStr s "<br>").get? 1 = some t ∧
          ev.title = replaceStr t "&amp;" "&")
    ∧ (∀ (cell : Cell) (d : NaiveDate) (s : String),
        cell.anchorHtml = some s → (splitStr s "<br>").get? 1 = none →
        Event.from_element cell d = none) := by
  constructor
  · intro cell d ev h
    simp only [Event.from_element, Option.bind_eq_some, Option.map_eq_some'] at h
    obtain ⟨details, hdet, times_raw, -, start, -, endT, -, title_raw, htitle, hev⟩ := h
    cases hev
    exact ⟨details, title_raw, hdet, htitle, rfl⟩
  · intro cell d s hs hnone
    simp only [Event.from_element, hs, Option.some_bind]
    cases h0 : (splitStr s "<br>").get? 0 with
    | none => simp
    | some times_raw =>
      simp only [Option.some_bind]
      cases h1 : ((splitStr times_raw "&nbsp;-").get? 0).bind parseTimeHM with
      | none => simp
      | some start =>
        simp only [Option.some_bind]
        cases h2 : ((splitStr times_raw "&nbsp;-").get? 1).bind parseTimeHM with
        | none => simp
        | some endT => simp only [Option.some_bind, hnone, Option.map_none']

/-- C6 counterexample: on `unsortedDoc` extraction succeeds but the events
list is not non-decreasing by date — the first data row contributes a Tuesday
event and the second data row a Monday event of the same week. -/
theorem events_sorted_counterexample :
    (Calendar.from_html unsortedDoc).isSome = true
    ∧ ((Calendar.from_html unsortedDoc).map fun cal => eventsSortedByDate cal.events) =
        some false := by
  exact ⟨by decide, by decide⟩

/-- C6 (amended): the events contributed by a single data row are
non-decreasing by date (the day offset only ever grows along a row), but the
full extracted sequence follows week/row/cell document order and need not be
globally sorted by date. -/
theorem events_sorted_within_row :
    ∀ (monday : NaiveDate) (dayIndex : Nat) (cells : List Cell) (evs : List Event),
      processCells monday dayIndex cells = some evs → eventsSortedByDate evs = true :=
  fun monday dayIndex cells evs h => processCells_sorted monday cells dayIndex evs h

/-- C7: an extracted event's location is the inner HTML of the second
resource element of its cell — `none` when the cell has zero or one resource
elements, and the second element's text when it has two or more (the first is
ignored). -/
theorem location_from_second_resource :
    ∀ (cell : Cell) (d : NaiveDate) (ev : Event), Event.from_element cell d = some ev →
      ev.location = cell.resources.get? 1
      ∧ (cell.resources.length ≤ 1 → ev.location = none)
      ∧ ∀ loc, cell.resources.get? 1 = some loc → ev.location = some loc := by
  intro cell d ev h
  have hloc : ev.location = cell.resources.get? 1 := by
    simp only [Event.from_element, Option.bind_eq_some, Option.map_eq_some'] at h
    obtain ⟨details, -, times_raw, -, start, -, endT, -, title_raw, -, hev⟩ := h
    cases hev
    rfl
  refine ⟨hloc, fun hlen => ?_, fun loc hl => ?_⟩
  · rw [hloc]
    exact List.get?_eq_none.mpr hlen
  · rw [hloc, hl]

/-- C8 counterexample: a cell carrying no CSS class at all is not skipped —
`classes().next()?` aborts, so the cell loop (and with it the extraction of
the whole document) returns `none` instead of treating the cell as blank. -/
theorem skip_cell_counterexample :
    classlessCell.classes.head? ≠ some "week_block"
    ∧ processCells 0 0 [classlessCell] = none
    ∧ Calendar.from_html classlessDoc = none := by
  exact ⟨by decide, by decide, by decide⟩

/-- C8 (amended): every cell that carries at least one CSS class and whose
first class is not exactly `"week_block"` is skipped without contributing an
event and without failure (advancing the day offset when the class starts
with `"week_separatorcell"`); a cell carrying no class at all instead aborts
the entire extraction. -/
theorem skip_non_session_cells :
    ∀ (monday : NaiveDate) (dayIndex : Nat) (c : Cell) (rest : List Cell) (cls : String),
      c.classes.head? = some cls → cls ≠ "week_block" →
      processCells monday dayIndex (c :: rest) =
        processCells monday
          (if startsWithStr cls "week_separatorcell" then dayIndex + 1 else dayIndex) rest := by
  intro monday dayIndex c rest cls hc hne
  simp only [processCells, hc, Option.some_bind, if_neg hne]

/-- C1: the year-rollover rule. A block whose parsed week number is 1 at a
positive zero-based index is processed (header dates included) with the
running year incremented, and the incremented year is carried to the
remaining blocks; a first block with week number 1 leaves the year unchanged;
consequently a two-block document whose first block reports a week number
above 1 and whose second reports week number 1 processes the second block
with `year + 1`. -/
theorem year_rollover :
    (∀ (year : Int) (idx : Nat) (w : Week) (ws : List Week), 0 < idx →
        parseWeekNumber w = some 1 →
        processWeeks year idx (w :: ws) =
          (processWeek (year + 1) w).bind fun evs =>
            (processWeeks (year + 1) (idx + 1) ws).map fun rest => evs ++ rest)
    ∧ (∀ (year : Int) (w : Week) (ws : List Week),
        parseWeekNumber w = some 1 →
        processWeeks year 0 (w :: ws) =
          (processWeek year w).bind fun evs =>
            (processWeeks year 1 ws).map fun rest => evs ++ rest)
    ∧ (∀ (year : Int) (w1 w2 : Week) (n1 : Nat),
        parseWeekNumber w1 = some n1 → 1 < n1 →
        parseWeekNumber w2 = some 1 →
        processWeeks year 0 [w1, w2] =
          (processWeek year w1).bind fun evs1 =>
            (processWeek (year + 1) w2).map fun evs2 => evs1 ++ evs2) := by
  refine ⟨?_, ?_, ?_⟩
  · intro year idx w ws hidx hw
    simp only [processWeeks, hw, Option.some_bind, true_and, if_pos hidx]
  · intro year w ws hw
    simp only [processWeeks, hw, Option.some_bind, true_and, lt_self_iff_false, if_false]
  · intro year w1 w2 n1 h1 hgt h2
    simp only [processWeeks, h1, h2, Option.some_bind]
    norm_num

/-- C2: day-offset reconstruction. Each data row is processed with the day
offset reset to 0 and the Monday date recomputed, and a `week_block` cell
preceded in its row by exactly `sepCount pre` day-separator cells (first CSS
class starting with `"week_separatorcell"`) is extracted with date
`monday + sepCount pre` days, its event landing in row order. -/
theorem day_offset_reconstruction :
    (∀ (year : Int) (month day : Nat) (row : Row) (rest : List Row),
        processRows year month day (row :: rest) =
          (NaiveDate.from_ymd_opt year month day).bind fun monday =>
            (processCells monday 0 row.cells).bind fun evs =>
              (processRows year month day rest).map fun evs' => evs ++ evs')
    ∧ (∀ (year : Int) (month day : Nat) (monday : NaiveDate) (pre post : List Cell) (c : Cell)
        (evs : List Event),
        NaiveDate.from_ymd_opt year month day = some monday →
        c.classes.head? = some "week_block" →
        processCells monday 0 (pre ++ c :: post) = some evs →
        ∃ evs1 ev evs2,
          processCells monday 0 pre = some evs1 ∧
          Event.from_element c (monday + (sepCount pre : Int)) = some ev ∧
          ev.date = monday + (sepCount pre : Int) ∧
          evs = evs1 ++ ev :: evs2) := by
  constructor
  · intro year month day row rest
    rfl
  · intro year month day monday pre post c evs hymd hc h
    rw [processCells_append] at h
    obtain ⟨evs1, hevs1, hmap⟩ := Option.bind_eq_some.mp h
    obtain ⟨evs2', hevs2', rfl⟩ := Option.map_eq_some'.mp hmap
    rw [Nat.zero_add] at hevs2'
    simp only [processCells, hc, Option.some_bind,
      show startsWithStr "week_block" "week_separatorcell" = false from by decide,
      Bool.false_eq_true, if_false, if_pos rfl] at hevs2'
    obtain ⟨ev, hev, hmap2⟩ := Option.bind_eq_some.mp hevs2'
    obtain ⟨evs2, hevs2, rfl⟩ := Option.map_eq_some'.mp hmap2
    exact ⟨evs1, ev, evs2, hevs1, hev, Event.from_element_date c _ _ hev, rfl⟩

/-- C4: no partial results. A missing title element, a missing or unparseable
year option, an unparseable week number, a failing week body, a failing tail
of weeks, an invalid Monday date, a failing row walk, a failing tail of rows,
or a failing event extraction at any cell each make the respective loop — and
with it `Calendar::from_html` — return `none` for the whole document. -/
theorem failure_aborts_extraction :
    (∀ doc : Doc, doc.titleHtml = none → Calendar.from_html doc = none)
    ∧ (∀ doc : Doc, doc.startYearHtml = none → Calendar.from_html doc = none)
    ∧ (∀ (doc : Doc) (s : String), doc.startYearHtml = some s → parseIntRust s = none →
        Calendar.from_html doc = none)
    ∧ (∀ (doc : Doc) (t s : String) (y : Int), doc.titleHtml = some t →
        doc.startYearHtml = some s → parseIntRust s = some y →
        processWeeks y 0 doc.weeks = none → Calendar.from_html doc = none)
    ∧ (∀ (year : Int) (idx : Nat) (w : Week) (ws : List Week), parseWeekNumber w = none →
        processWeeks year idx (w :: ws) = none)
    ∧ (∀ (year : Int) (idx : Nat) (w : Week) (ws : List Week) (n : Nat),
        parseWeekNumber w = some n →
        processWeek (if n = 1 ∧ 0 < idx then year + 1 else year) w = none →
        processWeeks year idx (w :: ws) = none)
    ∧ (∀ (year : Int) (idx : Nat) (w : Week) (ws : List Week) (n : Nat),
        parseWeekNumber w = some n →
        processWeeks (if n = 1 ∧ 0 < idx then year + 1 else year) (idx + 1) ws = none →
        processWeeks year idx (w :: ws) = none)
    ∧ (∀ (year : Int) (month day : Nat) (row : Row) (rows : List Row),
        NaiveDate.from_ymd_opt year month day = none →
        processRows year month day (row :: rows) = none)
    ∧ (∀ (year : Int) (month day : Nat) (monday : NaiveDate) (row : Row) (rows : List Row),
        NaiveDate.from_ymd_opt year month day = some monday →
        processCells monday 0 row.cells = none →
        processRows year month day (row :: rows) = none)
    ∧ (∀ (year : Int) (month day : Nat) (row : Row) (rows : List Row),
        processRows year month day rows = none →
        processRows year month day (row :: rows) = none)
    ∧ (∀ (monday : NaiveDate) (i : Nat) (pre post : List Cell) (c : Cell) (evs1 : List Event),
        processCells monday i pre = some evs1 →
        c.classes.head? = some "week_block" →
        Event.from_element c (monday + ((i + sepCount pre : Nat) : Int)) = none →
        processCells monday i (pre ++ c :: post) = none) := by
  refine ⟨?_, ?_, ?_, ?_, ?_, ?_, ?_, ?_, ?_, ?_, ?_⟩
  · intro doc h
    simp [Calendar.from_html, h]
  · intro doc h
    cases ht : doc.titleHtml <;> simp [Calendar.from_html, ht, h]
  · intro doc s hs hp
    cases ht : doc.titleHtml <;> simp [Calendar.from_html, ht, hs, hp]
  · intro doc t s y ht hs hp hw
    simp [Calendar.from_html, ht, hs, hp, hw]
  · intro year idx w ws h
    simp [processWeeks, h]
  · intro year idx w ws n hn h
    simp [processWeeks, hn, h]
  · intro year idx w ws n hn h
    cases hw : processWeek (if n = 1 ∧ 0 < idx then year + 1 else year) w <;>
      simp [processWeeks, hn, hw, h]
  · intro year month day row rows h
    simp [processRows, h]
  · intro year month day monday row rows hm h
    simp [processRows, hm, h]
  · intro year month day row rows h
    cases hm : NaiveDate.from_ymd_opt year month day <;>
      cases hr : processCells (Option.getD (NaiveDate.from_ymd_opt year month day) 0) 0 row.cells <;>
        simp_all [processRows]
  · intro monday i pre post c evs1 hpre hc hfail
    rw [processCells_append, hpre]
    simp only [Option.some_bind, processCells, hc,
      show startsWithStr "week_block" "week_separatorcell" = false from by decide,
      Bool.false_eq_true, if_false, if_pos rfl]
    rw [show monday + ((i + sepCount pre : Nat) : Int) = monday + (i + sepCount pre : Nat) from rfl]
      at hfail
    rw [hfail]
    rfl

/-- C9: shape of the exported calendar document. For every calendar,
`Calendar::to_ics` emits exactly the one fixed Berlin timezone definition and
one event block per event in order, each with summary equal to the title,
start and end instants `YYYYMMDDTHHMM00` rendered from the event's date and
time fields, and a location property exactly when the event has one. -/
theorem ics_export_shape :
    ∀ cal : Calendar,
      (Calendar.to_ics cal).version = "2.0"
      ∧ (Calendar.to_ics cal).timezones = [berlinTimezone]
      ∧ (Calendar.to_ics cal).events.length = cal.events.length
      ∧ ∀ (i : Nat) (ev : Event), cal.events.get? i = some ev →
          (Calendar.to_ics cal).events.get? i = some (Event.to_ics ev)
          ∧ (Event.to_ics ev).summary = ev.title
          ∧ (Event.to_ics ev).dtstart = formatYMD ev.date ++ "T" ++ formatHM ev.start ++ "00"
          ∧ (Event.to_ics ev).dtend = formatYMD ev.date ++ "T" ++ formatHM ev.endTime ++ "00"
          ∧ (Event.to_ics ev).location = ev.location := by
  intro cal
  refine ⟨rfl, rfl, by simp [Calendar.to_ics], ?_⟩
  intro i ev h
  refine ⟨?_, rfl, rfl, rfl, rfl⟩
  simp only [Calendar.to_ics]
  rw [List.get?_map, h]
  rfl

/-- C10 (implicit): the calendar name only fails on a missing title element.
A present title element never makes extraction fail — the name is the trimmed
inner content, the success of the remaining extraction is unchanged under any
replacement of the title content, and in particular an empty title content
yields a calendar whose name is the empty string. -/
theorem title_absent_only_failure :
    (∀ doc : Doc, doc.titleHtml = none → Calendar.from_html doc = none)
    ∧ (∀ (doc : Doc) (t : String) (cal : Calendar), doc.titleHtml = some t →
        Calendar.from_html doc = some cal → cal.name = trimStr t)
    ∧ (∀ (doc : Doc) (cal : Calendar) (t' : String), Calendar.from_html doc = some cal →
        Calendar.from_html { doc with titleHtml := some t' } =
          some { cal with name := trimStr t' })
    ∧ (∀ (doc : Doc) (cal : Calendar), Calendar.from_html doc = some cal →
        Calendar.from_html { doc with titleHtml := some "" } = some { cal with name := "" }) := by
  have h3 : ∀ (doc : Doc) (cal : Calendar) (t' : String), Calendar.from_html doc = some cal →
      Calendar.from_html { doc with titleHtml := some t' } =
        some { cal with name := trimStr t' } := by
    intro doc cal t' h
    simp only [Calendar.from_html, Option.bind_eq_some, Option.map_eq_some'] at h
    obtain ⟨t, ht, s, hs, y, hy, evs, hevs, hcal⟩ := h
    simp only [Calendar.from_html, hs, hy, hevs, Option.some_bind, Option.map_some']
    rw [← hcal]
  refine ⟨?_, ?_, h3, ?_⟩
  · intro doc h
    simp [Calendar.from_html, h]
  · intro doc t cal ht h
    simp only [Calendar.from_html, ht, Option.bind_eq_some, Option.some_bind,
      Option.map_eq_some'] at h
    obtain ⟨s, hs, y, hy, evs, hevs, hcal⟩ := h
    rw [← hcal]
  · intro doc cal h
    have := h3 doc cal "" h
    rwa [show trimStr "" = "" from by decide] at this

/-! ## Witnesses -/

/-- A week block labelled week 52 with no data rows. -/
def week52 : Week :=
  { weekNumberHtml := some "KW 52", startDateHtml := some "Mo 23.12.", rows := [] }

/-- A week block labelled week 1 with no data rows. -/
def week1 : Week :=
  { weekNumberHtml := some "KW 1", startDateHtml := some "Mo 30.12.", rows := [] }

/-- Witness for the year-rollover theorem at a concrete two-block document. -/
theorem year_rollover_witness :
    processWeeks 2019 0 [week52, week1] =
      (processWeek 2019 week52).bind fun evs1 =>
        (processWeek ((2019 : Int) + 1) week1).map fun evs2 => evs1 ++ evs2 :=
  year_rollover.2.2 2019 week52 week1 52 (by decide) (by decide) (by decide)

/-- Witness for the day-offset theorem: one separator, then a session cell. -/
theorem day_offset_reconstruction_witness :
    ∃ evs1 ev evs2,
      processCells (NaiveDate.daysFromCivil 2020 2 3) 0 [sepCell] = some evs1 ∧
      Event.from_element blockCellA
        (NaiveDate.daysFromCivil 2020 2 3 + (sepCount [sepCell] : Int)) = some ev ∧
      ev.date = NaiveDate.daysFromCivil 2020 2 3 + (sepCount [sepCell] : Int) ∧
      [({ date := 18296, start := ⟨9, 0⟩, endTime := ⟨10, 30⟩, title := "A",
          location := none } : Event)] = evs1 ++ ev :: evs2 :=
  day_offset_reconstruction.2 2020 2 3 (NaiveDate.daysFromCivil 2020 2 3) [sepCell] []
    blockCellA _ (by decide) (by decide) (by decide)

/-- Witness for the abort theorem: a missing title and a failing cell. -/
theorem failure_aborts_extraction_witness :
    Calendar.from_html { titleHtml := none, startYearHtml := some "2020", weeks := [] } = none
    ∧ processCells 0 0 ([] ++ noBreakCell :: []) = none :=
  ⟨failure_aborts_extraction.1 _ rfl,
    failure_aborts_extraction.2.2.2.2.2.2.2.2.2.2 0 0 [] [] noBreakCell []
      (by decide) (by decide) (by decide)⟩

/-- Witness for the amended title theorem: markup without a line break fails,
and the empty-title cell satisfies the title characterisation. -/
theorem title_characterisation_witness :
    Event.from_element noBreakCell 0 = none
    ∧ ∃ s t, emptyTitleCell.anchorHtml = some s ∧ (splitStr s "<br>").get? 1 = some t ∧
        ({ date := 0, start := ⟨9, 0⟩, endTime := ⟨10, 30⟩, title := "",
           location := none } : Event).title = replaceStr t "&amp;" "&" :=
  ⟨title_characterisation.2 noBreakCell 0 "09:00&nbsp;-10:30" (by decide) (by decide),
    title_characterisation.1 emptyTitleCell 0 _ (by decide)⟩

/-- Witness for the within-row sortedness theorem at a concrete row. -/
theorem events_sorted_within_row_witness :
    eventsSortedByDate
      [({ date := 1, start := ⟨9, 0⟩, endTime := ⟨10, 30⟩, title := "A",
          location := none } : Event)] = true :=
  events_sorted_within_row 0 0 [sepCell, blockCellA] _ (by decide)

/-- Witness for the location theorem at the two-resource example cell. -/
theorem location_from_second_resource_witness :
    ({ date := 0, start := ⟨9, 0⟩, endTime := ⟨10, 30⟩,
       title := "Algorithms & Data Structures",
       location := some "Room 101" } : Event).location = exampleCell.resources.get? 1 :=
  (location_from_second_resource exampleCell 0 _ (by decide)).1

/-- Witness for the skip theorem at a concrete separator cell. -/
theorem skip_non_session_cells_witness :
    processCells 0 0 (sepCell :: []) =
      processCells 0
        (if startsWithStr "week_separatorcell_black" "week_separatorcell" then 0 + 1 else 0) [] :=
  skip_non_session_cells 0 0 sepCell [] "week_separatorcell_black" (by decide) (by decide)

/-- A concrete event used to exercise the export-shape theorem. -/
def exportEvent : Event :=
  { date := 18295, start := ⟨9, 0⟩, endTime := ⟨10, 30⟩, title := "A B", location := some "R" }

/-- A concrete one-event calendar used to exercise the export-shape theorem. -/
def exportCalendar : Calendar :=
  { name := "X", events := [exportEvent] }

/-- Witness for the export-shape theorem at a one-event calendar. -/
theorem ics_export_shape_witness :
    (Calendar.to_ics exportCalendar).timezones = [berlinTimezone]
    ∧ (Calendar.to_ics exportCalendar).events.get? 0 = some (Event.to_ics exportEvent) :=
  ⟨(ics_export_shape exportCalendar).2.1,
    ((ics_export_shape exportCalendar).2.2.2 0 exportEvent (by decide)).1⟩

/-- The calendar extracted from the example document. -/
def exampleCalendar : Calendar :=
  { name := "DHBW Timetable"
    events := [ { date := NaiveDate.daysFromCivil 2020 2 3
                  start := ⟨9, 0⟩
                  endTime := ⟨10, 30⟩
                  title := "Algorithms & Data Structures"
                  location := some "Room 101" } ] }

/-- Witness for the title-handling theorem: a missing title element fails,
and replacing the example document's title only renames the calendar. -/
theorem title_absent_only_failure_witness :
    Calendar.from_html { titleHtml := none, startYearHtml := none, weeks := [] } = none
    ∧ Calendar.from_html { exampleDoc with titleHtml := some "  X  " } =
        some { exampleCalendar with name := trimStr "  X  " } :=
  ⟨title_absent_only_failure.1 _ rfl,
    title_absent_only_failure.2.2.1 exampleDoc exampleCalendar "  X  " (by decide)⟩

end RaplaSync
